import Mathlib

/-!
Verification development for the VIT ID-card OCR extraction pipeline
(`processImage.py`). The core pipeline `extract_vit_id_multiline` and its
helpers (`are_blocks_vertically_close`, `score_name_candidate_multiline`,
`clean_and_correct_name`, `fix_ocr_errors`) are shallowly embedded below.
Strings are handled through their character lists; normalized bounding-box
geometry (Python floats) is embedded as rationals; Python integers as `Int`.
Character classes (`\d`, `[A-Z]`, `str.isdigit`, whitespace, ...) are embedded
at their ASCII meaning, which coincides with Python on the ASCII data this
pipeline manipulates.
-/

namespace AttendanceSystem

/-- Character list of a string. -/
def chars (s : String) : List Char := s.data

/-- ASCII decimal digit (`\d`, `str.isdigit` on ASCII input). -/
def isDigitChar (c : Char) : Bool := decide (48 ≤ c.toNat ∧ c.toNat ≤ 57)

/-- ASCII upper-case letter (`[A-Z]`, `str.isupper` on ASCII input). -/
def isUpperAZ (c : Char) : Bool := decide (65 ≤ c.toNat ∧ c.toNat ≤ 90)

/-- ASCII lower-case letter (`[a-z]`). -/
def isLowerAZ (c : Char) : Bool := decide (97 ≤ c.toNat ∧ c.toNat ≤ 122)

/-- ASCII letter (`[a-zA-Z]`, `str.isalpha` on ASCII input). -/
def isLetterAZ (c : Char) : Bool := isUpperAZ c || isLowerAZ c

/-- ASCII whitespace (`\s`, the split/strip set ` \t\n\v\f\r`). -/
def isWsChar (c : Char) : Bool :=
  decide (c.toNat = 32 ∨ c.toNat = 9 ∨ c.toNat = 10 ∨ c.toNat = 11 ∨
    c.toNat = 12 ∨ c.toNat = 13)

/-- Regex word character (`\w` at its ASCII meaning: letter, digit or underscore). -/
def isWordChar (c : Char) : Bool := isLetterAZ c || isDigitChar c || decide (c.toNat = 95)

/-- Python `str.strip()`: drop whitespace from both ends. -/
def pyStrip (l : List Char) : List Char :=
  ((l.dropWhile isWsChar).reverse.dropWhile isWsChar).reverse

/-- Python `str.upper()` (per character, basic-latin). -/
def pyUpper (l : List Char) : List Char := l.map Char.toUpper

/-- Python `str.split()` helper: scan the chars, `acc` holds the current word
reversed. -/
def pySplitAux : List Char → List Char → List (List Char)
  | [], acc => if acc = [] then [] else [acc.reverse]
  | c :: rest, acc =>
    if isWsChar c then
      if acc = [] then pySplitAux rest [] else acc.reverse :: pySplitAux rest []
    else pySplitAux rest (c :: acc)

/-- Python `str.split()`: split on whitespace runs, dropping empty tokens. -/
def pySplit (l : List Char) : List (List Char) := pySplitAux l []

/-- Python `' '.join(...)` on char lists. -/
def joinSpace : List (List Char) → List Char
  | [] => []
  | [w] => w
  | w :: ws => w ++ ' ' :: joinSpace ws

/-- `' '.join` on strings. -/
def joinSpaceStr (ws : List String) : String := String.mk (joinSpace (ws.map chars))

/-- Contiguous-substring test (Python's `needle in hay`). -/
def containsSeq (needle : List Char) : List Char → Bool
  | [] => needle.isEmpty
  | c :: rest => needle.isPrefixOf (c :: rest) || containsSeq needle rest

/-!  ## Regex machinery for the anchor patterns

The three `rg_patterns` are compiled by hand.  `takeCount p n l` consumes
exactly `n` characters of class `p` (a `{n}` quantifier); `boundaryOk`
implements the trailing `\b` after a word character; the search driver
`reSearchAux` implements `re.search`'s leftmost-match scan, tracking whether
the previous character is a word character for the leading `\b`.
-/

/-- Consume exactly `n` chars satisfying `p`; return (consumed, rest). -/
def takeCount (p : Char → Bool) : Nat → List Char → Option (List Char × List Char)
  | 0, l => some ([], l)
  | _ + 1, [] => none
  | n + 1, c :: l =>
    if p c then Option.map (fun pr => (c :: pr.1, pr.2)) (takeCount p n l) else none

/-- `\b` after a word character: ok at end of input or before a non-word char. -/
def boundaryOk : List Char → Bool
  | [] => true
  | c :: _ => !isWordChar c

/-- Pattern `\d{2}[A-Z]{3}\d{4}\b` matched at the current position. -/
def matchTail1 (l : List Char) : Option (List Char × List Char) :=
  match takeCount isDigitChar 2 l with
  | none => none
  | some (g1, r1) =>
    match takeCount isUpperAZ 3 r1 with
    | none => none
    | some (g2, r2) =>
      match takeCount isDigitChar 4 r2 with
      | none => none
      | some (g3, r3) => if boundaryOk r3 then some (g1 ++ g2 ++ g3, r3) else none

/-- `\d{n}\b` at the current position: exactly `n` digits then a boundary. -/
def tryDigits (n : Nat) (r : List Char) : Option (List Char × List Char) :=
  match takeCount isDigitChar n r with
  | some (g, rr) => if boundaryOk rr then some (g, rr) else none
  | none => none

/-- Greedy `\d{3,5}\b` at the current position: a longer digit run is
preferred, backtracking to a shorter one when the boundary fails (which, the
following character being a digit then, can never actually succeed — exactly
the regex engine's behavior). -/
def greedyDigits (r : List Char) : Option (List Char × List Char) :=
  match tryDigits 5 r with
  | some p => some p
  | none =>
    match tryDigits 4 r with
    | some p => some p
    | none => tryDigits 3 r

/-- Pattern `\d{2}[A-Z]{3}\d{3,5}\b` matched at the current position. -/
def matchTail2 (l : List Char) : Option (List Char × List Char) :=
  match takeCount isDigitChar 2 l with
  | none => none
  | some (g1, r1) =>
    match takeCount isUpperAZ 3 r1 with
    | none => none
    | some (g2, r2) =>
      match greedyDigits r2 with
      | none => none
      | some (g3, r3) => some (g1 ++ g2 ++ g3, r3)

/-- Pattern `\d{2}\s*[A-Z]{3}\s*\d{4}\b` matched at the current position
(`\s*` greedily consumes the whitespace run; no backtracking is needed since
the following classes are disjoint from `\s`). -/
def matchTail3 (l : List Char) : Option (List Char × List Char) :=
  match takeCount isDigitChar 2 l with
  | none => none
  | some (g1, r1) =>
    match takeCount isUpperAZ 3 (r1.dropWhile isWsChar) with
    | none => none
    | some (g2, r2) =>
      match takeCount isDigitChar 4 (r2.dropWhile isWsChar) with
      | none => none
      | some (g3, r3) =>
        if boundaryOk r3 then
          some (g1 ++ r1.takeWhile isWsChar ++ g2 ++ r2.takeWhile isWsChar ++ g3, r3)
        else none

/-- `re.search` scan: try the matcher at each position left to right; the
leading `\b` holds when the previous character (if any) is not a word
character (every pattern starts with `\d`, a word character). -/
def reSearchAux (m : List Char → Option (List Char × List Char)) :
    Bool → List Char → Option (List Char)
  | prevWord, [] => if prevWord then none else Option.map Prod.fst (m [])
  | prevWord, c :: r =>
    match (if prevWord then none else Option.map Prod.fst (m (c :: r))) with
    | some g => some g
    | none => reSearchAux m (isWordChar c) r

/-- `re.search(pattern, l)`, returning `match.group(0)`. -/
def reSearch (m : List Char → Option (List Char × List Char)) (l : List Char) :
    Option (List Char) := reSearchAux m false l

/-- Per-line normalization for the anchor search:
`line.upper().replace(' ', '').replace('-', '')`. -/
def lineClean (line : String) : List Char :=
  ((pyUpper (chars line)).filter (fun c => !(c == ' '))).filter (fun c => !(c == '-'))

/-- Try the three `rg_patterns` in order on the cleaned line. -/
def searchLine (line : String) : Option (List Char) :=
  match reSearch matchTail1 (lineClean line) with
  | some g => some g
  | none =>
    match reSearch matchTail2 (lineClean line) with
    | some g => some g
    | none => reSearch matchTail3 (lineClean line)

/-- STEP 1 loop: first line (in list order) on which any pattern matches. -/
def findRGAux : Nat → List String → Option (Nat × List Char)
  | _, [] => none
  | i, line :: rest =>
    match searchLine line with
    | some g => some (i, g)
    | none => findRGAux (i + 1) rest

/-!  ## Data model -/

/-- One OCR line record (`text_blocks` entry): text plus normalized geometry. -/
structure Block where
  text : String
  confidence : ℚ
  top : ℚ
  left : ℚ
  height : ℚ
  width : ℚ
deriving DecidableEq

/-- A name candidate, mirroring the candidate dict of the source. -/
structure Candidate where
  name : String
  score : Int
  lines : Nat
  start_idx : Nat
  end_idx : Nat
  raw_lines : List String
deriving DecidableEq

/-- The `debug` sub-dict of the extraction result. -/
structure DebugInfo where
  totalLines : Nat
  rgFoundAt : Int
  candidatesFound : Nat
  topCandidate : Option Candidate
deriving DecidableEq

/-- The extraction result dict. -/
structure ExtractResult where
  name : String
  rgNumber : String
  success : Bool
  debug : DebugInfo
deriving DecidableEq

/-- `max_gap` default of `are_blocks_vertically_close` (0.015). -/
def max_gap : ℚ := 15 / 1000

/-- `are_blocks_vertically_close`: every consecutive vertical gap
(`next.top - (cur.top + cur.height)`) must be at most `max_gap`. -/
def are_blocks_vertically_close : List Block → Bool
  | b1 :: b2 :: rest =>
    if b2.top - (b1.top + b1.height) > max_gap then false
    else are_blocks_vertically_close (b2 :: rest)
  | _ => true

/-- The `skip_keywords` stop-list of the scorer. -/
def skip_keywords : List (List Char) :=
  [chars "VIT", chars "VELLORE", chars "INSTITUTE", chars "TECHNOLOGY",
   chars "CHENNAI", chars "CAMPUS", chars "DEEMED", chars "UNIVERSITY",
   chars "UGC", chars "SECTION", chars "ACT", chars "1956",
   chars "DAY", chars "SCHOLAR", chars "HOSTEL", chars "BLOCK",
   chars "VALID", chars "UNTIL", chars "HTTP", chars "WWW",
   chars ".COM", chars ".IN", chars "STUDENT", chars "CARD",
   chars "IDENTITY", chars "REGISTRATION", chars "NUMBER", chars "DATE",
   chars "ISSUE", chars "BLOOD", chars "GROUP"]

/-- The scorer's disqualifier regex `\d{2}[A-Z]{3}\d{4}` (no word boundaries):
does the pattern match at the head of the list? -/
def rgShapeHere (l : List Char) : Bool :=
  match takeCount isDigitChar 2 l with
  | none => false
  | some (_, r1) =>
    match takeCount isUpperAZ 3 r1 with
    | none => false
    | some (_, r2) => (takeCount isDigitChar 4 r2).isSome

/-- `re.search(r'\d{2}[A-Z]{3}\d{4}', l)` as a Bool: match at any position. -/
def rgShapeSomewhere : List Char → Bool
  | [] => false
  | c :: rest => rgShapeHere (c :: rest) || rgShapeSomewhere rest

/-- `score_name_candidate_multiline`: disqualifiers then additive signals.

The two Python float comparisons are embedded as exact integer comparisons:
`digit_count > len(text)*0.2` as `5*digit_count > len`, and
`alpha_count > len(text)*0.85` as `20*alpha_count > 17*len`; for the list
lengths arising here the IEEE-double products round so that both comparisons
agree with the exact rational ones. -/
def score_name_candidate_multiline (text : String) (raw_lines : List String)
    (start_idx : Nat) (rg_index : Int) (num_lines : Nat)
    (near_name_keyword : Bool) : Int :=
  if (pyStrip (chars text)).length < 3 then 0
  else
    let t := pyStrip (chars text)
    let upper_text := pyUpper t
    if skip_keywords.any (fun k => containsSeq k upper_text) then 0
    else if rgShapeSomewhere (upper_text.filter (fun c => !(c == ' '))) then 0
    else
      let digit_count := (t.filter isDigitChar).length
      if 5 * digit_count > t.length then 0
      else
        let lenB : Int :=
          if 8 ≤ t.length ∧ t.length ≤ 50 then 5
          else if 50 < t.length ∧ t.length ≤ 70 then 2 else 0
        let word_count := ((pySplit t).filter (fun w => 2 ≤ w.length)).length
        let wordB : Int :=
          if word_count = 2 then 8
          else if word_count = 3 then 10
          else if word_count = 4 then 8
          else if word_count = 5 then 5
          else if 6 ≤ word_count then 2 else 0
        let alpha_count := (t.filter isLetterAZ).length
        let alphaB : Int := if 20 * alpha_count > 17 * t.length then 5 else 0
        let capB : Int := if 2 ≤ (t.filter isUpperAZ).length then 4 else 0
        let mlB : Int := if num_lines = 2 then 6 else if num_lines = 3 then 4 else 0
        let posB : Int :=
          if 0 < rg_index then
            let distance : Int := rg_index - ((start_idx : Int) + (num_lines : Int) - 1)
            if distance = 1 then 15 else if distance = 2 then 10
            else if distance = 3 then 5 else 0
          else 0
        let kwB : Int := if near_name_keyword then 12 else 0
        let lineB : Int :=
          2 * ((raw_lines.filter (fun ln => 3 ≤ (pyStrip (chars ln)).length)).length : Int)
        max 0 (5 + lenB + wordB + alphaB + capB + mlB + posB + kwB + lineB)

/-!  ## Candidate generation (STEP 2 and STEP 3) -/

/-- One STEP 2 loop body: for span `[start_idx, start_idx+num_lines)` above the
anchor, apply the proximity gate (for multi-line spans), merge, score, and keep
the candidate only when its score is positive. -/
def mkPassACand (blocks : List Block) (lines : List String) (rgIdx : Nat)
    (num_lines start_idx : Nat) : Option Candidate :=
  if 1 < num_lines ∧
      are_blocks_vertically_close ((blocks.drop start_idx).take num_lines) = false then
    none
  else
    let merged_lines := (lines.drop start_idx).take num_lines
    let merged_text := joinSpaceStr merged_lines
    let score :=
      score_name_candidate_multiline merged_text merged_lines start_idx
        (rgIdx : Int) num_lines false
    if 0 < score then
      some ⟨merged_text, score, num_lines, start_idx, start_idx + num_lines, merged_lines⟩
    else none

/-- STEP 2 (anchor-relative pass): spans of 1–3 lines starting in the window
`[max(0, rg-6), rg)` whose end does not pass the anchor.  The source's `break`
on `end_idx > search_end` equals a filter because `end_idx` grows with
`start_idx`. -/
def passACands (blocks : List Block) (lines : List String) (rgIdx : Nat) :
    List Candidate :=
  [1, 2, 3].flatMap fun num_lines =>
    ((List.range' (rgIdx - 6) (rgIdx - (rgIdx - 6))).filter
        (fun s => s + num_lines ≤ rgIdx)).filterMap
      (mkPassACand blocks lines rgIdx num_lines)

/-- One STEP 3 loop body: the `num_lines` lines following the keyword line at
`kwIdx` (guarded by `i + num_lines < len(lines)`; the source's inner `break`
on `end_idx > len(lines)` can then never fire).  On a positive score the
candidate is stored with `score + 10` ("Bonus for being after NAME"). -/
def mkPassBCand (lines : List String) (rg_index : Int) (kwIdx num_lines : Nat) :
    Option Candidate :=
  if kwIdx + num_lines < lines.length then
    let start_idx := kwIdx + 1
    let merged_lines := (lines.drop start_idx).take num_lines
    let merged_text := joinSpaceStr merged_lines
    let score :=
      score_name_candidate_multiline merged_text merged_lines start_idx
        rg_index num_lines true
    if 0 < score then
      some ⟨merged_text, score + 10, num_lines, start_idx, start_idx + num_lines,
        merged_lines⟩
    else none
  else none

/-- STEP 3 scan over all lines, tracking the line index. -/
def passBAux (lines : List String) (rg_index : Int) :
    Nat → List String → List Candidate
  | _, [] => []
  | i, ln :: rest =>
    (if containsSeq (chars "NAME") (pyUpper (chars ln)) then
      [1, 2, 3].filterMap (mkPassBCand lines rg_index i)
    else []) ++ passBAux lines rg_index (i + 1) rest

/-!  ## The extraction pipeline -/

/-- The stripped texts of the blocks (`lines` in the source). -/
def theLines (blocks : List Block) : List String :=
  blocks.map (fun b => String.mk (pyStrip (chars b.text)))

/-- STEP 1 result for a block list. -/
def rgResult (blocks : List Block) : Option (Nat × List Char) :=
  findRGAux 0 (theLines blocks)

/-- `rg_index` (−1 sentinel when no line matches). -/
def rg_index_of (blocks : List Block) : Int :=
  match rgResult blocks with
  | some (i, _) => (i : Int)
  | none => -1

/-- `rg_number` ("Not Found" sentinel when no line matches). -/
def rg_number_of (blocks : List Block) : String :=
  match rgResult blocks with
  | some (_, g) => String.mk g
  | none => "Not Found"

/-- The anchor-relative part of the pool (empty unless `rg_index > 0`). -/
def passAPart (blocks : List Block) : List Candidate :=
  match rgResult blocks with
  | some (i, _) => if 0 < i then passACands blocks (theLines blocks) i else []
  | none => []

/-- The keyword-relative part of the pool. -/
def passBPart (blocks : List Block) : List Candidate :=
  passBAux (theLines blocks) (rg_index_of blocks) 0 (theLines blocks)

/-- `name_candidates` after both generation passes (STEP 2 then STEP 3). -/
def nameCandidates (blocks : List Block) : List Candidate :=
  passAPart blocks ++ passBPart blocks

/-- The selector's ordering: score descending.  Python's `list.sort` with
`key=score, reverse=True` is the stable descending sort, which
`List.insertionSort` with this relation computes. -/
def rScore (a b : Candidate) : Prop := b.score ≤ a.score

instance : DecidableRel rScore := fun a b => inferInstanceAs (Decidable (b.score ≤ a.score))

/-- STEP 4: the candidate pool sorted by score descending (stable). -/
def sortedCands (blocks : List Block) : List Candidate :=
  List.insertionSort rScore (nameCandidates blocks)

/-!  ## Name normalization -/

/-- A character kept by `re.sub(r"[^a-zA-Z\s.']", '', ...)`:
letter, whitespace, period or apostrophe. -/
def keepChar (c : Char) : Bool :=
  isLetterAZ c || isWsChar c || decide (c.toNat = 46) || decide (c.toNat = 39)

/-- Python `str.capitalize()`: first char upper-cased, rest lower-cased. -/
def pyCapitalize : List Char → List Char
  | [] => []
  | c :: rest => c.toUpper :: rest.map Char.toLower

/-- The OCR digit-to-letter substitution table of `fix_ocr_errors`. -/
def ocr_replacements : List (Char × Char) := [('0', 'O'), ('1', 'I'), ('5', 'S'), ('8', 'B')]

/-- The truncated-name fragment dictionary of `fix_ocr_errors`. -/
def incomplete_patterns : List (List Char × List Char) :=
  [(chars "amaneni", chars "Annamaneni"),
   (chars "nnamaneni", chars "Annamaneni"),
   (chars "naman", chars "Anaman")]

/-- `fix_ocr_errors`: digit substitutions (each guarded by membership in the
original word), then the fragment dictionary on words of length ≥ 4 (a hit
replaces the whole word), else the substituted word capitalized. -/
def fix_ocr_errors (word : List Char) : List Char :=
  let corrected := ocr_replacements.foldl
    (fun cur p =>
      if word.contains p.1 then cur.map (fun c => if c = p.1 then p.2 else c) else cur)
    word
  if 4 ≤ word.length then
    match incomplete_patterns.find? (fun p => containsSeq p.1 (word.map Char.toLower)) with
    | some p => p.2
    | none => pyCapitalize corrected
  else pyCapitalize corrected

/-- `re.sub(r'\s+[A-Za-z]$', '', l)`: drop a lone trailing letter together
with the whitespace run before it. -/
def stripTrailingLetter (l : List Char) : List Char :=
  match l.reverse with
  | c :: d :: rest =>
    if isLetterAZ c ∧ isWsChar d then ((d :: rest).dropWhile isWsChar).reverse else l
  | _ => l

/-- The words the normalizer feeds to per-token correction: whitespace
collapse, digit strip, special-character strip, split, drop short tokens. -/
def cleanWords (l : List Char) : List (List Char) :=
  (pySplit (((joinSpace (pySplit l)).filter (fun c => !(isDigitChar c))).filter
    keepChar)).filter (fun w => 2 ≤ w.length)

/-- `clean_and_correct_name` on the char list. -/
def cleanNameChars (l : List Char) : List Char :=
  stripTrailingLetter
    (pyStrip (joinSpace ((cleanWords l).map (fun w => pyCapitalize (fix_ocr_errors w)))))

/-- `clean_and_correct_name`. -/
def clean_and_correct_name (name : String) : String :=
  String.mk (cleanNameChars (chars name))

/-- `extract_vit_id_multiline`: the full pipeline, returning the result dict
(with `success = True` unconditionally). -/
def extract_vit_id_multiline (blocks : List Block) : ExtractResult :=
  { name :=
      match sortedCands blocks with
      | [] => "Unknown"
      | best :: _ => clean_and_correct_name best.name
    rgNumber := rg_number_of blocks
    success := true
    debug :=
      { totalLines := (theLines blocks).length
        rgFoundAt := rg_index_of blocks
        candidatesFound := (nameCandidates blocks).length
        topCandidate := (sortedCands blocks).head? } }

/-- The caller's ordering: `text_blocks.sort(key=lambda x: x['top'])`, a
stable ascending sort by `top`. -/
def rTop (a b : Block) : Prop := a.top ≤ b.top

instance : DecidableRel rTop := fun a b => inferInstanceAs (Decidable (a.top ≤ b.top))

/-- `lambda_handler`'s core data path: stable-sort the line records by `top`,
then run the extraction. -/
def processBlocks (blocks : List Block) : ExtractResult :=
  extract_vit_id_multiline (List.insertionSort rTop blocks)

/-!  ## Concrete fixtures used by witnesses and counterexamples -/

/-- A line record with the given text, top and height (other fields fixed). -/
def mkBlock (t : String) (top h : ℚ) : Block := ⟨t, 90, top, 0, h, 1⟩

/-- A NAME keyword line followed by a name line (no anchor anywhere). -/
def kwBlocks : List Block :=
  [mkBlock "NAME" 0 (1 / 100), mkBlock "JOHN SMITH" (2 / 100) (1 / 100)]

/-- A NAME keyword line followed by two far-apart lines (gap 0.39 > 0.015). -/
def gapBlocks : List Block :=
  [mkBlock "NAME" 0 (1 / 100), mkBlock "JOHN SMITH" (1 / 10) (1 / 100),
   mkBlock "RAVI KUMAR" (1 / 2) (1 / 100)]

/-- Two vertically close name lines above an anchor line. -/
def closeBlocks : List Block :=
  [mkBlock "RAVI" 0 (1 / 100), mkBlock "KUMAR" (11 / 1000) (1 / 100),
   mkBlock "21BCE1234" (22 / 1000) (1 / 100)]

/-- Two name lines sharing the same `top`, above an anchor line. -/
def dupTopA : List Block :=
  [mkBlock "JOHN SMITH" 0 (1 / 100), mkBlock "RAVI KUMAR" 0 (1 / 100),
   mkBlock "21BCE1234" (1 / 10) (1 / 100)]

/-- `dupTopA` with the two equal-`top` lines swapped. -/
def dupTopB : List Block :=
  [mkBlock "RAVI KUMAR" 0 (1 / 100), mkBlock "JOHN SMITH" 0 (1 / 100),
   mkBlock "21BCE1234" (1 / 10) (1 / 100)]

/-- Identifier shape 1: exactly 2 digits, 3 upper-case letters, 4 digits. -/
def isShape1 (g : List Char) : Bool :=
  match takeCount isDigitChar 2 g with
  | none => false
  | some (_, r1) =>
    match takeCount isUpperAZ 3 r1 with
    | none => false
    | some (_, r2) =>
      match takeCount isDigitChar 4 r2 with
      | none => false
      | some (_, r3) => r3.isEmpty

/-- Identifier shape 2: 2 digits, 3 upper-case letters, then 3 to 5 digits. -/
def isShape2 (g : List Char) : Bool :=
  match takeCount isDigitChar 2 g with
  | none => false
  | some (_, r1) =>
    match takeCount isUpperAZ 3 r1 with
    | none => false
    | some (_, r2) =>
      r2.all isDigitChar && decide (3 ≤ r2.length) && decide (r2.length ≤ 5)

/-- Identifier shape 3: the spaced variant of shape 1. -/
def isShape3 (g : List Char) : Bool :=
  match takeCount isDigitChar 2 g with
  | none => false
  | some (_, r1) =>
    match takeCount isUpperAZ 3 (r1.dropWhile isWsChar) with
    | none => false
    | some (_, r2) =>
      match takeCount isDigitChar 4 (r2.dropWhile isWsChar) with
      | none => false
      | some (_, r3) => r3.isEmpty

/-- One of the three identifier-shape patterns. -/
def matchesAnyShape (g : List Char) : Bool := isShape1 g || isShape2 g || isShape3 g

/-- Scenario A line records: the five fixed texts with arbitrary geometry. -/
def scenarioABlocks (b0 b1 b2 b3 b4 : Block) : List Block :=
  [{ b0 with text := "VIT UNIVERSITY" }, { b1 with text := "NAME" },
   { b2 with text := "JOHN SMITH" }, { b3 with text := "21BCE1234" },
   { b4 with text := "BLOOD GROUP O+" }]

/-- The stripped texts of `scenarioABlocks`. -/
def scenarioALines : List String :=
  ["VIT UNIVERSITY", "NAME", "JOHN SMITH", "21BCE1234", "BLOOD GROUP O+"]

/-- Strict version of the caller's sort order. -/
def rTopLt (a b : Block) : Prop := a.top < b.top

instance : IsTotal Block rTop := ⟨fun a b => le_total a.top b.top⟩

instance : IsTrans Block rTop := ⟨fun _ _ _ h1 h2 => le_trans h1 h2⟩

instance : IsAntisymm Block rTopLt := ⟨fun _ _ h1 h2 => (lt_asymm h1 h2).elim⟩

/-- Comparison definition for the refinement claim C9, following the spec's
words: per-token OCR-correction with the digit-to-letter substitution stage
removed (the fragment dictionary and capitalization are unchanged). -/
def fix_ocr_errors_nosubst (word : List Char) : List Char :=
  if 4 ≤ word.length then
    match incomplete_patterns.find? (fun p => containsSeq p.1 (word.map Char.toLower)) with
    | some p => p.2
    | none => pyCapitalize word
  else pyCapitalize word

/-- The normalizer built on `fix_ocr_errors_nosubst` (C9's comparison). -/
def cleanNameChars_nosubst (l : List Char) : List Char :=
  stripTrailingLetter
    (pyStrip (joinSpace
      ((cleanWords l).map (fun w => pyCapitalize (fix_ocr_errors_nosubst w)))))

/-- The full normalizer variant without digit substitution. -/
def clean_and_correct_name_nosubst (name : String) : String :=
  String.mk (cleanNameChars_nosubst (chars name))

/-- A clean token: length ≥ 2, alphabetic, and already in capitalized form. -/
def isCleanToken (w : List Char) : Bool :=
  decide (2 ≤ w.length) && w.all isLetterAZ && decide (pyCapitalize w = w)

/-- No truncated-name dictionary fragment occurs in the lower-cased token. -/
def noFragment (w : List Char) : Bool :=
  incomplete_patterns.all (fun p => !containsSeq p.1 (w.map Char.toLower))

/-!  ## Generation-pass soundness lemmas -/

/-- What a successful STEP 2 loop body guarantees about its candidate. -/
theorem mkPassACand_eq_some {blocks : List Block} {lines : List String}
    {rgIdx L s : Nat} {c : Candidate}
    (h : mkPassACand blocks lines rgIdx L s = some c) :
    0 < c.score ∧ c.lines = L ∧ c.start_idx = s ∧
      (1 < L → are_blocks_vertically_close ((blocks.drop s).take L) = true) := by
  simp only [mkPassACand] at h
  split at h
  · cases h
  · next hgate =>
    split at h
    · next hscore =>
      cases h
      refine ⟨hscore, rfl, rfl, fun hL => ?_⟩
      cases hclose : are_blocks_vertically_close ((blocks.drop s).take L)
      · exact absurd ⟨hL, hclose⟩ hgate
      · rfl
    · cases h

/-- Membership in the anchor-relative pass comes from some loop body. -/
theorem passACands_mem {blocks : List Block} {lines : List String} {rgIdx : Nat}
    {c : Candidate} (h : c ∈ passACands blocks lines rgIdx) :
    ∃ L s, mkPassACand blocks lines rgIdx L s = some c := by
  simp only [passACands, List.mem_flatMap, List.mem_filterMap] at h
  obtain ⟨L, -, s, -, hm⟩ := h
  exact ⟨L, s, hm⟩

/-- What a successful STEP 3 loop body guarantees: a positive pre-bonus score,
and a stored score that is the scorer's output plus the +10 insertion bonus. -/
theorem mkPassBCand_eq_some {lines : List String} {rg : Int} {k L : Nat}
    {c : Candidate} (h : mkPassBCand lines rg k L = some c) :
    0 < c.score ∧
      c.score = score_name_candidate_multiline c.name c.raw_lines c.start_idx
        rg c.lines true + 10 := by
  simp only [mkPassBCand] at h
  split at h
  · split at h
    · next hscore =>
      cases h
      refine ⟨?_, rfl⟩
      show (0 : Int) < _ + 10
      omega
    · cases h
  · cases h

/-- Membership in the keyword-relative pass comes from some loop body. -/
theorem passBAux_mem {lines : List String} {rg : Int} {c : Candidate} :
    ∀ (rest : List String) (i : Nat), c ∈ passBAux lines rg i rest →
      ∃ k L, mkPassBCand lines rg k L = some c := by
  intro rest
  induction rest with
  | nil => intro i h; simp [passBAux] at h
  | cons ln rest ih =>
    intro i h
    rw [passBAux] at h
    rcases List.mem_append.mp h with h1 | h1
    · split at h1
      · obtain ⟨L, -, hm⟩ := List.mem_filterMap.mp h1
        exact ⟨i, L, hm⟩
      · cases h1
    · exact ih (i + 1) h1

/-!  ## Claims C10, C5, C2, C1 -/

/-- C10: the core extraction function returns `success = True` for every
input, including the empty line list and inputs yielding both sentinels: the
success flag is constant and never reports failure from within the core. -/
theorem claim_C10_success_constant (blocks : List Block) :
    (extract_vit_id_multiline blocks).success = true := rfl

/-- C5: for every input, every candidate present in the pool has score > 0;
any generated merge whose score is ≤ 0 is discarded immediately, so the
reported candidate count and the top candidate reflect only positive-score
candidates. -/
theorem claim_C5_pool_scores_positive (blocks : List Block) (c : Candidate)
    (hc : c ∈ nameCandidates blocks) : 0 < c.score := by
  rcases List.mem_append.mp hc with h | h
  · unfold passAPart at h
    split at h
    · split at h
      · exact (mkPassACand_eq_some (passACands_mem h).choose_spec.choose_spec).1
      · cases h
    · cases h
  · unfold passBPart at h
    obtain ⟨k, L, hm⟩ := passBAux_mem _ _ h
    exact (mkPassBCand_eq_some hm).1

/-- Witness for C5 at a concrete input: the keyword-pass candidate generated
from `kwBlocks` is in the pool and its score is positive. -/
theorem claim_C5_witness :
    ((⟨"JOHN SMITH", 51, 1, 1, 2, ["JOHN SMITH"]⟩ : Candidate) ∈
        nameCandidates kwBlocks) ∧
      (0 : Int) < (⟨"JOHN SMITH", 51, 1, 1, 2, ["JOHN SMITH"]⟩ : Candidate).score :=
  ⟨by decide, claim_C5_pool_scores_positive kwBlocks _ (by decide)⟩

/-- C2 counterexample: on `gapBlocks` the keyword-relative pass merges the
2-line span (indices 1–2) into a pool candidate even though the span's
vertical gap (0.39) exceeds 0.015, i.e. the span fails
`are_blocks_vertically_close`; so the claim's "no candidate in the pool, from
either generation pass, has a multi-line span that fails the ProximityFilter"
is false as stated. -/
theorem claim_C2_cex :
    nameCandidates gapBlocks =
      [⟨"JOHN SMITH", 51, 1, 1, 2, ["JOHN SMITH"]⟩,
       ⟨"JOHN SMITH RAVI KUMAR", 59, 2, 1, 3, ["JOHN SMITH", "RAVI KUMAR"]⟩] ∧
      are_blocks_vertically_close ((gapBlocks.drop 1).take 2) = false :=
  of_decide_eq_true (by with_unfolding_all rfl)

/-- C2 amended: the proximity gate is enforced by the anchor-relative pass
only — every multi-line candidate produced by Pass A has a span that passes
`are_blocks_vertically_close` (the keyword-relative pass applies no proximity
filter). -/
theorem claim_C2_passA_proximity_gate (blocks : List Block) (c : Candidate)
    (hc : c ∈ passAPart blocks) (h2 : 2 ≤ c.lines) :
    are_blocks_vertically_close ((blocks.drop c.start_idx).take c.lines) = true := by
  unfold passAPart at hc
  split at hc
  · split at hc
    · obtain ⟨L, s, hm⟩ := passACands_mem hc
      obtain ⟨-, hL, hs, hgate⟩ := mkPassACand_eq_some hm
      rw [hL, hs]
      exact hgate (by omega)
    · cases hc
  · cases hc

/-- Witness for the amended C2 at a concrete input: the 2-line Pass A
candidate of `closeBlocks` has a span passing the proximity gate. -/
theorem claim_C2_witness :
    ((⟨"RAVI KUMAR", 52, 2, 0, 2, ["RAVI", "KUMAR"]⟩ : Candidate) ∈
        passAPart closeBlocks) ∧
      are_blocks_vertically_close ((closeBlocks.drop 0).take 2) = true :=
  ⟨of_decide_eq_true (by with_unfolding_all rfl),
   claim_C2_passA_proximity_gate closeBlocks
     ⟨"RAVI KUMAR", 52, 2, 0, 2, ["RAVI", "KUMAR"]⟩
     (of_decide_eq_true (by with_unfolding_all rfl)) (by decide)⟩

/-- C1 counterexample: on `kwBlocks` the keyword-relative pass stores its
candidate with score 51, while the CandidateScorer output for the merged text
(with the keyword signal) is 41 — an extra +10 is added between scoring and
insertion, so the claim's "the pool score equals the CandidateScorer output"
is false as stated. -/
theorem claim_C1_cex :
    passBPart kwBlocks = [⟨"JOHN SMITH", 51, 1, 1, 2, ["JOHN SMITH"]⟩] ∧
      score_name_candidate_multiline "JOHN SMITH" ["JOHN SMITH"] 1
        (rg_index_of kwBlocks) 1 true = 41 ∧
      (51 : Int) ≠ 41 := by decide

/-- C1 amended: every keyword-pass candidate's pool score equals the
CandidateScorer output for its merged text (whose keyword signal is +12)
plus an additional +10 insertion bonus. -/
theorem claim_C1_passB_score_offset (blocks : List Block) (c : Candidate)
    (hc : c ∈ passBPart blocks) :
    c.score = score_name_candidate_multiline c.name c.raw_lines c.start_idx
      (rg_index_of blocks) c.lines true + 10 := by
  unfold passBPart at hc
  obtain ⟨k, L, hm⟩ := passBAux_mem _ _ hc
  exact (mkPassBCand_eq_some hm).2

/-- Witness for the amended C1 at a concrete input. -/
theorem claim_C1_witness :
    ((⟨"JOHN SMITH", 51, 1, 1, 2, ["JOHN SMITH"]⟩ : Candidate) ∈
        passBPart kwBlocks) ∧
      (51 : Int) = score_name_candidate_multiline "JOHN SMITH" ["JOHN SMITH"] 1
        (rg_index_of kwBlocks) 1 true + 10 :=
  ⟨by decide,
   claim_C1_passB_score_offset kwBlocks
     ⟨"JOHN SMITH", 51, 1, 1, 2, ["JOHN SMITH"]⟩ (by decide)⟩

/-!  ## Claim C6: selector stability -/

/-- The head of the stable descending insertion sort is the first list element
attaining the maximal score: it beats everything weakly and everything before
it strictly. -/
theorem insertionSort_desc_head (l : List Candidate) : l ≠ [] →
    ∃ i : Fin l.length,
      (List.insertionSort rScore l).head? = some (l.get i) ∧
      (∀ c ∈ l, c.score ≤ (l.get i).score) ∧
      (∀ j : Fin l.length, (j : ℕ) < (i : ℕ) → (l.get j).score < (l.get i).score) := by
  induction l with
  | nil => intro h; exact absurd rfl h
  | cons a l ih =>
    intro _
    cases l with
    | nil =>
      refine ⟨⟨0, by simp⟩, rfl, ?_, ?_⟩
      · intro c hc
        rcases List.mem_singleton.mp hc with rfl
        exact le_refl _
      · intro j hj
        exact absurd hj (Nat.not_lt_zero _)
    | cons b m =>
      obtain ⟨i', h1, h2, h3⟩ := ih (by simp)
      obtain ⟨tl, hsort⟩ :
          ∃ tl, List.insertionSort rScore (b :: m) = (b :: m).get i' :: tl := by
        cases hso : List.insertionSort rScore (b :: m) with
        | nil => rw [hso] at h1; cases h1
        | cons hd tl =>
          rw [hso] at h1
          injection h1 with h1
          exact ⟨tl, by rw [h1]⟩
      by_cases hr : rScore a ((b :: m).get i')
      · refine ⟨⟨0, by simp⟩, ?_, ?_, ?_⟩
        · show (List.orderedInsert rScore a (List.insertionSort rScore (b :: m))).head? = _
          rw [hsort]
          show (if rScore a ((b :: m).get i') then _ else _ : List Candidate).head? = _
          rw [if_pos hr]
          rfl
        · intro c hc
          rcases List.mem_cons.mp hc with rfl | hc'
          · exact le_refl _
          · exact le_trans (h2 c hc') hr
        · intro j hj
          exact absurd hj (Nat.not_lt_zero _)
      · have hlt : a.score < ((b :: m).get i').score := lt_of_not_le hr
        refine ⟨⟨(i' : ℕ) + 1,
          by have := i'.isLt; simp only [List.length_cons] at this ⊢; omega⟩, ?_, ?_, ?_⟩
        · show (List.orderedInsert rScore a (List.insertionSort rScore (b :: m))).head? = _
          rw [hsort]
          show (if rScore a ((b :: m).get i') then _ else _ : List Candidate).head? = _
          rw [if_neg hr]
          rfl
        · intro c hc
          rcases List.mem_cons.mp hc with rfl | hc'
          · exact le_of_lt hlt
          · exact h2 c hc'
        · intro j hj
          rcases j with ⟨j, hjlt⟩
          cases j with
          | zero => exact hlt
          | succ jj =>
            have : jj < (i' : ℕ) := by simpa using hj
            exact h3 ⟨jj, by simpa using hjlt⟩ this

/-- C6: the selector picks the highest-scoring candidate with a stable
tie-break.  The reported top candidate is some pool element whose score is
maximal and which strictly beats every earlier-generated pool element, so
among equal scores the earlier-generated candidate wins. -/
theorem claim_C6_selector_stability (blocks : List Block)
    (h : nameCandidates blocks ≠ []) :
    ∃ i : Fin (nameCandidates blocks).length,
      (extract_vit_id_multiline blocks).debug.topCandidate =
        some ((nameCandidates blocks).get i) ∧
      (∀ c ∈ nameCandidates blocks, c.score ≤ ((nameCandidates blocks).get i).score) ∧
      (∀ j : Fin (nameCandidates blocks).length, (j : ℕ) < (i : ℕ) →
        ((nameCandidates blocks).get j).score <
          ((nameCandidates blocks).get i).score) :=
  insertionSort_desc_head (nameCandidates blocks) h

/-- Witness for C6 at a concrete input with a nonempty pool. -/
theorem claim_C6_witness :
    nameCandidates kwBlocks ≠ [] ∧
      ∃ i : Fin (nameCandidates kwBlocks).length,
        (extract_vit_id_multiline kwBlocks).debug.topCandidate =
          some ((nameCandidates kwBlocks).get i) ∧
        (∀ c ∈ nameCandidates kwBlocks,
          c.score ≤ ((nameCandidates kwBlocks).get i).score) ∧
        (∀ j : Fin (nameCandidates kwBlocks).length, (j : ℕ) < (i : ℕ) →
          ((nameCandidates kwBlocks).get j).score <
            ((nameCandidates kwBlocks).get i).score) :=
  ⟨by decide, claim_C6_selector_stability kwBlocks (by decide)⟩

/-!  ## Claim C7: permutation invariance of the pipeline -/

/-- A list sorted by `top` with pairwise-distinct `top` values is strictly
sorted. -/
theorem sorted_strict_of_nodup_tops {s : List Block}
    (hs : List.Sorted rTop s) (hnd : (s.map Block.top).Nodup) :
    List.Sorted rTopLt s := by
  have hpw : s.Pairwise (fun a b => a.top ≠ b.top) := List.pairwise_map.mp hnd
  exact (List.Pairwise.and hs hpw).imp fun h => lt_of_le_of_ne h.1 h.2

/-- C7 counterexample: `dupTopA` and `dupTopB` are permutations of one
another (two line records share `top = 0`), yet the pipeline returns
different results — name "John Smith Ravi Kumar" versus
"Ravi Kumar John Smith" — so the output is not invariant under reordering of
the caller-supplied line list as stated. -/
theorem claim_C7_cex :
    dupTopA.Perm dupTopB ∧ processBlocks dupTopA ≠ processBlocks dupTopB :=
  ⟨List.Perm.swap _ _ _, of_decide_eq_true (by with_unfolding_all rfl)⟩

/-- C7 amended: the pipeline's output is invariant under reordering of the
caller-supplied line list provided the records' `top` values are pairwise
distinct (the re-sort by `top` is stable, so records sharing a `top` keep
their caller-supplied relative order, which can leak into the output). -/
theorem claim_C7_perm_invariant (l1 l2 : List Block) (hp : l1.Perm l2)
    (hd : (l1.map Block.top).Nodup) : processBlocks l1 = processBlocks l2 := by
  have hp1 : (List.insertionSort rTop l1).Perm l1 := List.perm_insertionSort rTop l1
  have hp2 : (List.insertionSort rTop l2).Perm l2 := List.perm_insertionSort rTop l2
  have hperm : (List.insertionSort rTop l1).Perm (List.insertionSort rTop l2) :=
    hp1.trans (hp.trans hp2.symm)
  have hnd1 : ((List.insertionSort rTop l1).map Block.top).Nodup :=
    ((hp1.map Block.top).nodup_iff).mpr hd
  have hnd2 : ((List.insertionSort rTop l2).map Block.top).Nodup :=
    ((hperm.map Block.top).nodup_iff).mp hnd1
  have hs : List.insertionSort rTop l1 = List.insertionSort rTop l2 :=
    List.eq_of_perm_of_sorted (r := rTopLt) hperm
      (sorted_strict_of_nodup_tops (List.sorted_insertionSort rTop l1) hnd1)
      (sorted_strict_of_nodup_tops (List.sorted_insertionSort rTop l2) hnd2)
  unfold processBlocks
  rw [hs]

/-- Witness for the amended C7 at a concrete permutation pair with pairwise
distinct tops. -/
theorem claim_C7_witness :
    closeBlocks.Perm
        [mkBlock "KUMAR" (11 / 1000) (1 / 100), mkBlock "RAVI" 0 (1 / 100),
         mkBlock "21BCE1234" (22 / 1000) (1 / 100)] ∧
      (closeBlocks.map Block.top).Nodup ∧
      processBlocks closeBlocks =
        processBlocks
          [mkBlock "KUMAR" (11 / 1000) (1 / 100), mkBlock "RAVI" 0 (1 / 100),
           mkBlock "21BCE1234" (22 / 1000) (1 / 100)] :=
  ⟨List.Perm.swap _ _ _, of_decide_eq_true (by with_unfolding_all rfl),
   claim_C7_perm_invariant _ _ (List.Perm.swap _ _ _)
     (of_decide_eq_true (by with_unfolding_all rfl))⟩

/-!  ## Claim C3: Scenario A -/

/-- Projection fact: the debug anchor index is `rg_index_of`. -/
theorem extract_rgFoundAt_def (blocks : List Block) :
    (extract_vit_id_multiline blocks).debug.rgFoundAt = rg_index_of blocks := rfl

/-- Projection fact: the result identifier is `rg_number_of`. -/
theorem extract_rgNumber_def (blocks : List Block) :
    (extract_vit_id_multiline blocks).rgNumber = rg_number_of blocks := rfl

/-- Projection fact: the debug top candidate is the sorted pool's head. -/
theorem extract_topCandidate_def (blocks : List Block) :
    (extract_vit_id_multiline blocks).debug.topCandidate =
      (sortedCands blocks).head? := rfl

/-- Projection fact: the result name comes from the sorted pool's head. -/
theorem extract_name_def (blocks : List Block) :
    (extract_vit_id_multiline blocks).name =
      (match sortedCands blocks with
        | [] => "Unknown"
        | best :: _ => clean_and_correct_name best.name) := rfl

set_option maxHeartbeats 1600000 in
/-- C3: on the Scenario A lines ["VIT UNIVERSITY", "NAME", "JOHN SMITH",
"21BCE1234", "BLOOD GROUP O+"] — with any geometry at all, in particular any
geometry consistent with that vertical order — the extractor finds the anchor
at index 3 with identifier "21BCE1234", the keyword pass's "JOHN SMITH"
candidate (score 66) is the top-scoring candidate, and the final output is
name "John Smith" with identifier "21BCE1234". -/
theorem claim_C3_scenarioA (b0 b1 b2 b3 b4 : Block) :
    (extract_vit_id_multiline (scenarioABlocks b0 b1 b2 b3 b4)).debug.rgFoundAt = 3 ∧
      (extract_vit_id_multiline (scenarioABlocks b0 b1 b2 b3 b4)).rgNumber = "21BCE1234" ∧
      (extract_vit_id_multiline (scenarioABlocks b0 b1 b2 b3 b4)).debug.topCandidate =
        some ⟨"JOHN SMITH", 66, 1, 2, 3, ["JOHN SMITH"]⟩ ∧
      (⟨"JOHN SMITH", 66, 1, 2, 3, ["JOHN SMITH"]⟩ : Candidate) ∈
        passBPart (scenarioABlocks b0 b1 b2 b3 b4) ∧
      (extract_vit_id_multiline (scenarioABlocks b0 b1 b2 b3 b4)).name = "John Smith" := by
  set bs := scenarioABlocks b0 b1 b2 b3 b4 with hbs
  have hL : theLines bs = scenarioALines := by
    rw [hbs]
    simp only [theLines, scenarioABlocks, List.map_cons, List.map_nil]
    decide
  have hRG : rgResult bs = some (3, chars "21BCE1234") := by
    simp only [rgResult, hL]
    decide
  have hri : rg_index_of bs = 3 := by
    simp only [rg_index_of, hRG]
    decide
  have h10 : mkPassACand bs scenarioALines 3 1 0 = none := by
    unfold mkPassACand
    rw [if_neg (fun h => absurd h.1 (by omega))]
    decide
  have h11 : mkPassACand bs scenarioALines 3 1 1 =
      some ⟨"NAME", 26, 1, 1, 2, ["NAME"]⟩ := by
    unfold mkPassACand
    rw [if_neg (fun h => absurd h.1 (by omega))]
    decide
  have h12 : mkPassACand bs scenarioALines 3 1 2 =
      some ⟨"JOHN SMITH", 44, 1, 2, 3, ["JOHN SMITH"]⟩ := by
    unfold mkPassACand
    rw [if_neg (fun h => absurd h.1 (by omega))]
    decide
  have h20 : mkPassACand bs scenarioALines 3 2 0 = none := by
    unfold mkPassACand
    split
    · rfl
    · decide
  have h30 : mkPassACand bs scenarioALines 3 3 0 = none := by
    unfold mkPassACand
    split
    · rfl
    · decide
  have hr1 : (List.range' (3 - 6) (3 - (3 - 6))).filter (fun s => s + 1 ≤ 3) = [0, 1, 2] := by
    decide
  have hr2 : (List.range' (3 - 6) (3 - (3 - 6))).filter (fun s => s + 2 ≤ 3) = [0, 1] := by
    decide
  have hr3 : (List.range' (3 - 6) (3 - (3 - 6))).filter (fun s => s + 3 ≤ 3) = [0] := by
    decide
  have hB : passBPart bs = [⟨"JOHN SMITH", 66, 1, 2, 3, ["JOHN SMITH"]⟩] := by
    unfold passBPart
    rw [hL, hri]
    decide
  have hAPre : passAPart bs = passACands bs scenarioALines 3 := by
    unfold passAPart
    rw [hRG]
    show passACands bs (theLines bs) 3 = _
    rw [hL]
  by_cases hc : are_blocks_vertically_close (List.take 2 (List.drop 1 bs)) = true
  · have h21 : mkPassACand bs scenarioALines 3 2 1 =
        some ⟨"NAME JOHN SMITH", 54, 2, 1, 3, ["NAME", "JOHN SMITH"]⟩ := by
      unfold mkPassACand
      rw [if_neg (fun h => absurd (hc.symm.trans h.2) (by decide))]
      decide
    have hAC : passAPart bs =
        [⟨"NAME", 26, 1, 1, 2, ["NAME"]⟩,
         ⟨"JOHN SMITH", 44, 1, 2, 3, ["JOHN SMITH"]⟩,
         ⟨"NAME JOHN SMITH", 54, 2, 1, 3, ["NAME", "JOHN SMITH"]⟩] := by
      rw [hAPre]
      simp only [passACands, List.flatMap_cons, List.flatMap_nil, hr1, hr2, hr3,
        List.filterMap_cons, List.filterMap_nil, h10, h11, h12, h20, h21, h30,
        List.append_nil, List.nil_append, List.cons_append]
    have hNC : nameCandidates bs =
        [⟨"NAME", 26, 1, 1, 2, ["NAME"]⟩,
         ⟨"JOHN SMITH", 44, 1, 2, 3, ["JOHN SMITH"]⟩,
         ⟨"NAME JOHN SMITH", 54, 2, 1, 3, ["NAME", "JOHN SMITH"]⟩,
         ⟨"JOHN SMITH", 66, 1, 2, 3, ["JOHN SMITH"]⟩] := by
      unfold nameCandidates
      rw [hAC, hB]
      decide
    have hS : sortedCands bs =
        [⟨"JOHN SMITH", 66, 1, 2, 3, ["JOHN SMITH"]⟩,
         ⟨"NAME JOHN SMITH", 54, 2, 1, 3, ["NAME", "JOHN SMITH"]⟩,
         ⟨"JOHN SMITH", 44, 1, 2, 3, ["JOHN SMITH"]⟩,
         ⟨"NAME", 26, 1, 1, 2, ["NAME"]⟩] := by
      unfold sortedCands
      rw [hNC]
      decide
    refine ⟨?_, ?_, ?_, ?_, ?_⟩
    · rw [extract_rgFoundAt_def]
      exact hri
    · rw [extract_rgNumber_def]
      simp only [rg_number_of, hRG]
      decide
    · rw [extract_topCandidate_def, hS]
      rfl
    · rw [hB]
      decide
    · rw [extract_name_def, hS]
      decide
  · have hcf : are_blocks_vertically_close (List.take 2 (List.drop 1 bs)) = false := by
      cases h : are_blocks_vertically_close (List.take 2 (List.drop 1 bs))
      · rfl
      · exact absurd h hc
    have h21 : mkPassACand bs scenarioALines 3 2 1 = none := by
      unfold mkPassACand
      rw [if_pos ⟨by omega, hcf⟩]
    have hAC : passAPart bs =
        [⟨"NAME", 26, 1, 1, 2, ["NAME"]⟩,
         ⟨"JOHN SMITH", 44, 1, 2, 3, ["JOHN SMITH"]⟩] := by
      rw [hAPre]
      simp only [passACands, List.flatMap_cons, List.flatMap_nil, hr1, hr2, hr3,
        List.filterMap_cons, List.filterMap_nil, h10, h11, h12, h20, h21, h30,
        List.append_nil, List.nil_append, List.cons_append]
    have hNC : nameCandidates bs =
        [⟨"NAME", 26, 1, 1, 2, ["NAME"]⟩,
         ⟨"JOHN SMITH", 44, 1, 2, 3, ["JOHN SMITH"]⟩,
         ⟨"JOHN SMITH", 66, 1, 2, 3, ["JOHN SMITH"]⟩] := by
      unfold nameCandidates
      rw [hAC, hB]
      decide
    have hS : sortedCands bs =
        [⟨"JOHN SMITH", 66, 1, 2, 3, ["JOHN SMITH"]⟩,
         ⟨"JOHN SMITH", 44, 1, 2, 3, ["JOHN SMITH"]⟩,
         ⟨"NAME", 26, 1, 1, 2, ["NAME"]⟩] := by
      unfold sortedCands
      rw [hNC]
      decide
    refine ⟨?_, ?_, ?_, ?_, ?_⟩
    · rw [extract_rgFoundAt_def]
      exact hri
    · rw [extract_rgNumber_def]
      simp only [rg_number_of, hRG]
      decide
    · rw [extract_topCandidate_def, hS]
      rfl
    · rw [hB]
      decide
    · rw [extract_name_def, hS]
      decide

/-!  ## Claim C4: identifier shape soundness -/

/-- What a successful `takeCount` tells us. -/
theorem takeCount_sound {p : Char → Bool} :
    ∀ {n : Nat} {l g r : List Char}, takeCount p n l = some (g, r) →
      g.length = n ∧ (∀ c ∈ g, p c = true) ∧ l = g ++ r := by
  intro n
  induction n with
  | zero =>
    intro l g r h
    rw [takeCount] at h
    cases h
    exact ⟨rfl, by simp, rfl⟩
  | succ n ih =>
    intro l g r h
    cases l with
    | nil => rw [takeCount] at h; cases h
    | cons c rest =>
      rw [takeCount] at h
      split at h
      · next hpc =>
        cases ht : takeCount p n rest with
        | none => rw [ht] at h; cases h
        | some pr =>
          obtain ⟨g', r'⟩ := pr
          rw [ht] at h
          simp only [Option.map_some'] at h
          cases h
          obtain ⟨h1, h2, h3⟩ := ih ht
          refine ⟨by simp [h1], ?_, by rw [h3]; rfl⟩
          intro x hx
          rcases List.mem_cons.mp hx with rfl | hx'
          · exact hpc
          · exact h2 x hx'
      · cases h

/-- `takeCount` succeeds on a prefix of the right length and class. -/
theorem takeCount_complete {p : Char → Bool} :
    ∀ {g : List Char}, (∀ c ∈ g, p c = true) →
      ∀ r, takeCount p g.length (g ++ r) = some (g, r) := by
  intro g
  induction g with
  | nil => intro _ r; rfl
  | cons c g ih =>
    intro hall r
    simp only [List.length_cons, List.cons_append]
    rw [takeCount]
    rw [if_pos (hall c (by simp))]
    rw [ih (fun x hx => hall x (by simp [hx])) r]
    rfl

/-- `takeCount` consumes a whole list of the right length and class. -/
theorem takeCount_exact {p : Char → Bool} {g : List Char}
    (hp : ∀ c ∈ g, p c = true) : takeCount p g.length g = some (g, []) := by
  have h := takeCount_complete hp []
  rwa [List.append_nil] at h

/-- Character-class fact: an upper-case letter is not whitespace. -/
theorem not_ws_of_upper {c : Char} (h : isUpperAZ c = true) : isWsChar c = false := by
  simp only [isUpperAZ, decide_eq_true_eq] at h
  simp only [isWsChar, decide_eq_false_iff_not]
  omega

/-- Character-class fact: a digit is not whitespace. -/
theorem not_ws_of_digit {c : Char} (h : isDigitChar c = true) : isWsChar c = false := by
  simp only [isDigitChar, decide_eq_true_eq] at h
  simp only [isWsChar, decide_eq_false_iff_not]
  omega

/-- Dropping a `p`-true block then continues on the rest. -/
theorem dropWhile_append_all {p : Char → Bool} {w x : List Char}
    (hw : ∀ c ∈ w, p c = true) : (w ++ x).dropWhile p = x.dropWhile p := by
  induction w with
  | nil => rfl
  | cons c w ih =>
    rw [List.cons_append, List.dropWhile_cons, if_pos (hw c (by simp))]
    exact ih (fun d hd => hw d (by simp [hd]))

/-- `dropWhile` is the identity when the head fails the predicate. -/
theorem dropWhile_head_false {p : Char → Bool} {c : Char} {x : List Char}
    (hc : p c = false) : (c :: x).dropWhile p = c :: x := by
  rw [List.dropWhile_cons, if_neg (by simp [hc])]

/-- `matchTail1` consumes a shape-1 group. -/
theorem matchTail1_sound {l g r : List Char} (h : matchTail1 l = some (g, r)) :
    l = g ++ r ∧ isShape1 g = true := by
  unfold matchTail1 at h
  split at h
  · cases h
  · next g1 r1 h1 =>
    split at h
    · cases h
    · next g2 r2 h2 =>
      split at h
      · cases h
      · next g3 r3 h3 =>
        split at h
        · cases h
          obtain ⟨hl1, hp1, he1⟩ := takeCount_sound h1
          obtain ⟨hl2, hp2, he2⟩ := takeCount_sound h2
          obtain ⟨hl3, hp3, he3⟩ := takeCount_sound h3
          constructor
          · rw [he1, he2, he3]
            simp [List.append_assoc]
          · unfold isShape1
            rw [List.append_assoc, show (2 : Nat) = g1.length from hl1.symm,
              takeCount_complete hp1]
            simp only []
            rw [show (3 : Nat) = g2.length from hl2.symm, takeCount_complete hp2]
            simp only []
            rw [show (4 : Nat) = g3.length from hl3.symm, takeCount_exact hp3]
            rfl
        · cases h

/-- Whitespace prefix then a non-whitespace head: `dropWhile` strips exactly
the prefix. -/
theorem dropWhile_past_ws {w : List Char} (hw : ∀ c ∈ w, isWsChar c = true)
    {c : Char} (hc : isWsChar c = false) (y : List Char) :
    (w ++ (c :: y)).dropWhile isWsChar = c :: y := by
  rw [dropWhile_append_all hw]
  exact dropWhile_head_false hc

/-- What a successful `tryDigits` tells us. -/
theorem tryDigits_sound {n : Nat} {r g rr : List Char}
    (h : tryDigits n r = some (g, rr)) :
    r = g ++ rr ∧ (∀ c ∈ g, isDigitChar c = true) ∧ g.length = n := by
  unfold tryDigits at h
  split at h
  · next g' rr' ht =>
    split at h
    · cases h
      obtain ⟨hl, hp, he⟩ := takeCount_sound ht
      exact ⟨he, hp, hl⟩
    · cases h
  · cases h

/-- What a successful `greedyDigits` tells us. -/
theorem greedyDigits_sound {r g rr : List Char}
    (h : greedyDigits r = some (g, rr)) :
    r = g ++ rr ∧ (∀ c ∈ g, isDigitChar c = true) ∧
      3 ≤ g.length ∧ g.length ≤ 5 := by
  unfold greedyDigits at h
  split at h
  · next p h5 =>
    cases h
    obtain ⟨he, hp, hl⟩ := tryDigits_sound h5
    exact ⟨he, hp, by omega, by omega⟩
  · split at h
    · next p h4 =>
      cases h
      obtain ⟨he, hp, hl⟩ := tryDigits_sound h4
      exact ⟨he, hp, by omega, by omega⟩
    · obtain ⟨he, hp, hl⟩ := tryDigits_sound h
      exact ⟨he, hp, by omega, by omega⟩

/-- `matchTail2` consumes a shape-2 group. -/
theorem matchTail2_sound {l g r : List Char} (h : matchTail2 l = some (g, r)) :
    l = g ++ r ∧ isShape2 g = true := by
  unfold matchTail2 at h
  split at h
  · cases h
  · next g1 r1 h1 =>
    split at h
    · cases h
    · next g2 r2 h2 =>
      split at h
      · cases h
      · next g3 r3 h3 =>
        cases h
        obtain ⟨hl1, hp1, he1⟩ := takeCount_sound h1
        obtain ⟨hl2, hp2, he2⟩ := takeCount_sound h2
        obtain ⟨he3, hp3, hlo, hhi⟩ := greedyDigits_sound h3
        constructor
        · rw [he1, he2, he3]
          simp [List.append_assoc]
        · unfold isShape2
          simp only [List.append_assoc]
          rw [show (2 : Nat) = g1.length from hl1.symm, takeCount_complete hp1]
          simp only []
          rw [show (3 : Nat) = g2.length from hl2.symm, takeCount_complete hp2]
          simp only []
          simp only [List.all_eq_true, Bool.and_eq_true, decide_eq_true_eq]
          exact ⟨⟨hp3, by omega⟩, by omega⟩

/-- `matchTail3` consumes a shape-3 group. -/
theorem matchTail3_sound {l g r : List Char} (h : matchTail3 l = some (g, r)) :
    l = g ++ r ∧ isShape3 g = true := by
  unfold matchTail3 at h
  split at h
  · cases h
  · next g1 r1 h1 =>
    split at h
    · cases h
    · next g2 r2 h2 =>
      split at h
      · cases h
      · next g3 r3 h3 =>
        split at h
        · cases h
          obtain ⟨hl1, hp1, he1⟩ := takeCount_sound h1
          obtain ⟨hl2, hp2, he2⟩ := takeCount_sound h2
          obtain ⟨hl3, hp3, he3⟩ := takeCount_sound h3
          have hw1 : ∀ c ∈ r1.takeWhile isWsChar, isWsChar c = true :=
            fun c hc => List.mem_takeWhile_imp hc
          have hw2 : ∀ c ∈ r2.takeWhile isWsChar, isWsChar c = true :=
            fun c hc => List.mem_takeWhile_imp hc
          obtain ⟨c2, g2', rfl⟩ : ∃ c2 g2', g2 = c2 :: g2' := by
            cases g2 with
            | nil => simp at hl2
            | cons a b => exact ⟨a, b, rfl⟩
          obtain ⟨c3, g3', rfl⟩ : ∃ c3 g3', g3 = c3 :: g3' := by
            cases g3 with
            | nil => simp at hl3
            | cons a b => exact ⟨a, b, rfl⟩
          constructor
          · rw [he1]
            conv_lhs => rw [← List.takeWhile_append_dropWhile (p := isWsChar) (l := r1)]
            rw [he2]
            conv_lhs => rw [← List.takeWhile_append_dropWhile (p := isWsChar) (l := r2)]
            rw [he3]
            simp [List.append_assoc]
          · simp only [List.append_assoc, List.cons_append]
            unfold isShape3
            rw [show (2 : Nat) = g1.length from hl1.symm, takeCount_complete hp1]
            simp only []
            rw [dropWhile_past_ws hw1 (not_ws_of_upper (hp2 c2 (by simp)))]
            have e2 : takeCount isUpperAZ 3
                  (c2 :: (g2' ++ (r2.takeWhile isWsChar ++ (c3 :: g3'))))
                = some (c2 :: g2', r2.takeWhile isWsChar ++ (c3 :: g3')) := by
              rw [show c2 :: (g2' ++ (r2.takeWhile isWsChar ++ (c3 :: g3')))
                  = (c2 :: g2') ++ (r2.takeWhile isWsChar ++ (c3 :: g3')) from rfl,
                show (3 : Nat) = (c2 :: g2').length from hl2.symm,
                takeCount_complete hp2]
            rw [e2]
            simp only []
            rw [dropWhile_past_ws hw2 (not_ws_of_digit (hp3 c3 (by simp)))]
            have e3 : takeCount isDigitChar 4 (c3 :: g3') = some (c3 :: g3', []) := by
              rw [show (4 : Nat) = (c3 :: g3').length from hl3.symm, takeCount_exact hp3]
            rw [e3]
            rfl
        · cases h

/-- A successful `re.search` scan comes from a match at some position. -/
theorem reSearchAux_sound {m : List Char → Option (List Char × List Char)} :
    ∀ {l : List Char} {b : Bool} {g : List Char}, reSearchAux m b l = some g →
      ∃ pre suf r, l = pre ++ suf ∧ m suf = some (g, r) := by
  intro l
  induction l with
  | nil =>
    intro b g h
    rw [reSearchAux] at h
    split at h
    · cases h
    · cases hm : m [] with
      | none => rw [hm] at h; cases h
      | some pr =>
        rw [hm] at h
        simp only [Option.map_some'] at h
        cases h
        exact ⟨[], [], pr.2, rfl, by rw [hm]⟩
  | cons c rest ih =>
    intro b g h
    rw [reSearchAux] at h
    split at h
    · next g' hsome =>
      cases h
      split at hsome
      · cases hsome
      · cases hm : m (c :: rest) with
        | none => rw [hm] at hsome; cases hsome
        | some pr =>
          rw [hm] at hsome
          simp only [Option.map_some'] at hsome
          cases hsome
          exact ⟨[], c :: rest, pr.2, rfl, by rw [hm]⟩
    · next hnone =>
      obtain ⟨pre, suf, r, hl, hm⟩ := ih h
      exact ⟨c :: pre, suf, r, by rw [hl]; rfl, hm⟩

/-- A successful per-line pattern search returns a group that has one of the
three identifier shapes and occurs as a contiguous substring of the cleaned
line. -/
theorem searchLine_sound {line : String} {g : List Char}
    (h : searchLine line = some g) :
    matchesAnyShape g = true ∧ List.IsInfix g (lineClean line) := by
  unfold searchLine at h
  split at h
  · next g0 hs =>
    cases h
    obtain ⟨pre, suf, r, hl, hm⟩ := reSearchAux_sound hs
    obtain ⟨hsuf, hshape⟩ := matchTail1_sound hm
    refine ⟨by simp [matchesAnyShape, hshape], pre, r, ?_⟩
    rw [hl, hsuf]
    simp [List.append_assoc]
  · split at h
    · next g0 hs =>
      cases h
      obtain ⟨pre, suf, r, hl, hm⟩ := reSearchAux_sound hs
      obtain ⟨hsuf, hshape⟩ := matchTail2_sound hm
      refine ⟨by simp [matchesAnyShape, hshape], pre, r, ?_⟩
      rw [hl, hsuf]
      simp [List.append_assoc]
    · obtain ⟨pre, suf, r, hl, hm⟩ := reSearchAux_sound h
      obtain ⟨hsuf, hshape⟩ := matchTail3_sound hm
      refine ⟨by simp [matchesAnyShape, hshape], pre, r, ?_⟩
      rw [hl, hsuf]
      simp [List.append_assoc]

/-- The STEP 1 loop finds the first line on which any pattern matches. -/
theorem findRGAux_sound :
    ∀ {lines : List String} {k i : Nat} {g : List Char},
      findRGAux k lines = some (i, g) →
      ∃ j line, lines[j]? = some line ∧ i = k + j ∧ searchLine line = some g ∧
        ∀ j' line', j' < j → lines[j']? = some line' → searchLine line' = none := by
  intro lines
  induction lines with
  | nil => intro k i g h; rw [findRGAux] at h; cases h
  | cons line rest ih =>
    intro k i g h
    rw [findRGAux] at h
    split at h
    · next g0 hs =>
      cases h
      refine ⟨0, line, by simp, by omega, hs, ?_⟩
      intro j' line' hj' _
      omega
    · next hs =>
      obtain ⟨j, ln, hj, hi, hsl, hbef⟩ := ih h
      refine ⟨j + 1, ln, by simpa using hj, by omega, hsl, ?_⟩
      intro j' line' hj' hline'
      cases j' with
      | zero =>
        have : line = line' := by simpa using hline'
        subst this
        exact hs
      | succ jj =>
        exact hbef jj line' (by omega) (by simpa using hline')

/-- C4: for every input, the returned identifier is either the "Not Found"
sentinel (with anchor index −1) or a contiguous substring of some line's
normalization (upper-cased, spaces and hyphens removed) matching one of the
three identifier-shape patterns, taken from the first line in vertical order
on which any pattern matches. -/
theorem claim_C4_identifier_shape (blocks : List Block) :
    ((extract_vit_id_multiline blocks).rgNumber = "Not Found" ∧
      (extract_vit_id_multiline blocks).debug.rgFoundAt = -1) ∨
    (∃ (i : Nat) (line : String), (theLines blocks)[i]? = some line ∧
      (extract_vit_id_multiline blocks).debug.rgFoundAt = (i : Int) ∧
      matchesAnyShape (chars (extract_vit_id_multiline blocks).rgNumber) = true ∧
      List.IsInfix (chars (extract_vit_id_multiline blocks).rgNumber)
        (lineClean line) ∧
      ∀ j line', j < i → (theLines blocks)[j]? = some line' →
        searchLine line' = none) := by
  rw [extract_rgNumber_def, extract_rgFoundAt_def]
  cases hr : rgResult blocks with
  | none =>
    left
    unfold rg_number_of rg_index_of
    rw [hr]
    exact ⟨rfl, rfl⟩
  | some p =>
    obtain ⟨i, g⟩ := p
    right
    unfold rg_number_of rg_index_of
    rw [hr]
    have hfind : findRGAux 0 (theLines blocks) = some (i, g) := hr
    obtain ⟨j, line, hj, hi, hsl, hbef⟩ := findRGAux_sound hfind
    have hij : i = j := by omega
    subst hij
    obtain ⟨hshape, hinf⟩ := searchLine_sound hsl
    exact ⟨i, line, hj, rfl, hshape, hinf, hbef⟩

/-!  ## Claims C9 and C8: the name normalizer -/

/-- Character-class fact: a letter is not a digit. -/
theorem not_digit_of_letter {c : Char} (h : isLetterAZ c = true) :
    isDigitChar c = false := by
  simp only [isLetterAZ, isUpperAZ, isLowerAZ, Bool.or_eq_true,
    decide_eq_true_eq] at h
  simp only [isDigitChar, decide_eq_false_iff_not]
  omega

/-- Character-class fact: a letter is not whitespace. -/
theorem not_ws_of_letter {c : Char} (h : isLetterAZ c = true) :
    isWsChar c = false := by
  simp only [isLetterAZ, isUpperAZ, isLowerAZ, Bool.or_eq_true,
    decide_eq_true_eq] at h
  simp only [isWsChar, decide_eq_false_iff_not]
  omega

/-- Character-class fact: a letter survives the special-character strip. -/
theorem keep_of_letter {c : Char} (h : isLetterAZ c = true) :
    keepChar c = true := by
  simp [keepChar, h]

/-- Characters of any `pySplitAux` word come from the input or accumulator. -/
theorem pySplitAux_mem_subset :
    ∀ {l acc w : List Char}, w ∈ pySplitAux l acc →
      ∀ {c : Char}, c ∈ w → c ∈ l ∨ c ∈ acc := by
  intro l
  induction l with
  | nil =>
    intro acc w hw c hc
    rw [pySplitAux] at hw
    split at hw
    · cases hw
    · rcases List.mem_singleton.mp hw with rfl
      exact Or.inr (List.mem_reverse.mp hc)
  | cons d rest ih =>
    intro acc w hw c hc
    rw [pySplitAux] at hw
    split at hw
    · split at hw
      · rcases ih hw hc with h | h
        · exact Or.inl (List.mem_cons_of_mem _ h)
        · cases h
      · rcases List.mem_cons.mp hw with rfl | hw'
        · exact Or.inr (List.mem_reverse.mp hc)
        · rcases ih hw' hc with h | h
          · exact Or.inl (List.mem_cons_of_mem _ h)
          · cases h
    · rcases ih hw hc with h | h
      · exact Or.inl (List.mem_cons_of_mem _ h)
      · rcases List.mem_cons.mp h with rfl | h'
        · exact Or.inl (List.mem_cons_self _ _)
        · exact Or.inr h'

/-- Every character of every normalizer token is digit-free: the digit strip
happens before tokenization. -/
theorem cleanWords_no_digit {l w : List Char} (hw : w ∈ cleanWords l)
    {c : Char} (hc : c ∈ w) : isDigitChar c = false := by
  unfold cleanWords at hw
  have hw' := (List.mem_filter.mp hw).1
  unfold pySplit at hw'
  rcases pySplitAux_mem_subset hw' hc with h | h
  · have h2 := (List.mem_filter.mp h).1
    have h3 := (List.mem_filter.mp h2).2
    simpa using h3
  · cases h

/-- The guarded digit-substitution fold is the identity on digit-free words. -/
theorem ocr_fold_id {w : List Char} (hnd : ∀ c ∈ w, isDigitChar c = false) :
    ocr_replacements.foldl
      (fun cur p =>
        if w.contains p.1 then cur.map (fun c => if c = p.1 then p.2 else c)
        else cur) w = w := by
  have h0 : ¬ '0' ∈ w := fun hm => absurd (hnd '0' hm) (by decide)
  have h1 : ¬ '1' ∈ w := fun hm => absurd (hnd '1' hm) (by decide)
  have h5 : ¬ '5' ∈ w := fun hm => absurd (hnd '5' hm) (by decide)
  have h8 : ¬ '8' ∈ w := fun hm => absurd (hnd '8' hm) (by decide)
  simp [ocr_replacements, h0, h1, h5, h8]

/-- On a digit-free word, `fix_ocr_errors` equals the variant with the digit
substitution removed. -/
theorem fix_ocr_errors_no_digit {w : List Char}
    (hnd : ∀ c ∈ w, isDigitChar c = false) :
    fix_ocr_errors w = fix_ocr_errors_nosubst w := by
  simp only [fix_ocr_errors, fix_ocr_errors_nosubst, ocr_fold_id hnd]

/-- C9: the digit-to-letter substitution table inside per-token correction is
unreachable: digits are stripped before tokenization, so every token reaching
`fix_ocr_errors` is digit-free and the full normalizer is extensionally equal
to the variant with the digit-substitution step removed. -/
theorem claim_C9_digit_substitution_dead (s : String) :
    clean_and_correct_name s = clean_and_correct_name_nosubst s := by
  unfold clean_and_correct_name clean_and_correct_name_nosubst
    cleanNameChars cleanNameChars_nosubst
  have hmap : ∀ w ∈ cleanWords (chars s),
      pyCapitalize (fix_ocr_errors w) = pyCapitalize (fix_ocr_errors_nosubst w) :=
    fun w hw => by
      rw [fix_ocr_errors_no_digit (fun c hc => cleanWords_no_digit hw hc)]
  rw [List.map_congr_left hmap]

/-- `pySplitAux` scans a whitespace-free block into the accumulator. -/
theorem pySplitAux_nonws :
    ∀ (w : List Char), (∀ c ∈ w, isWsChar c = false) →
      ∀ (rest acc : List Char),
        pySplitAux (w ++ rest) acc = pySplitAux rest (w.reverse ++ acc) := by
  intro w
  induction w with
  | nil => intro _ rest acc; simp
  | cons c w ih =>
    intro hw rest acc
    rw [List.cons_append, pySplitAux, if_neg (by simp [hw c (by simp)])]
    rw [ih (fun d hd => hw d (by simp [hd])) rest (c :: acc)]
    simp [List.append_assoc]

/-- `str.split()` on a two-word string with a single separating space. -/
theorem pySplit_two {w1 w2 : List Char} (h1 : w1 ≠ []) (h2 : w2 ≠ [])
    (hw1 : ∀ c ∈ w1, isWsChar c = false) (hw2 : ∀ c ∈ w2, isWsChar c = false) :
    pySplit (w1 ++ ' ' :: w2) = [w1, w2] := by
  have hsplit2 : pySplitAux w2 [] = [w2] := by
    have h := pySplitAux_nonws w2 hw2 [] []
    rw [List.append_nil] at h
    rw [h, pySplitAux, if_neg (by simp [h2])]
    simp
  unfold pySplit
  rw [pySplitAux_nonws w1 hw1, pySplitAux, if_pos (by decide),
    if_neg (by simp [h1]), hsplit2]
  simp

/-- On a digit-free, fragment-free word, per-token correction is just
capitalization. -/
theorem fix_ocr_errors_clean {w : List Char}
    (hnd : ∀ c ∈ w, isDigitChar c = false) (hf : noFragment w = true) :
    fix_ocr_errors w = pyCapitalize w := by
  unfold noFragment at hf
  have hfind : incomplete_patterns.find?
      (fun p => containsSeq p.1 (w.map Char.toLower)) = none := by
    rw [List.find?_eq_none]
    intro p hp
    have h := List.all_eq_true.mp hf p hp
    simpa using h
  simp only [fix_ocr_errors, ocr_fold_id hnd, hfind, ite_self]

/-- The trailing-letter strip is the identity when the second-to-last
character is not whitespace. -/
theorem stripTrailingLetter_eq_self {l : List Char}
    (h : ∀ c d rest, l.reverse = c :: d :: rest → isWsChar d = false) :
    stripTrailingLetter l = l := by
  unfold stripTrailingLetter
  split
  · next c d rest heq =>
    rw [if_neg (fun hh => absurd hh.2 (by simp [h c d rest heq]))]
  · rfl

/-- C8 counterexample: "Naman Kumar" is a clean Firstname-Lastname string
(two capitalized alphabetic words of length ≥ 2 joined by one space), yet
the normalizer rewrites it to "Anaman Kumar" via the truncated-name fragment
dictionary — so NameNormalizer is not idempotent on all clean names. -/
theorem claim_C8_cex :
    isCleanToken (chars "Naman") = true ∧ isCleanToken (chars "Kumar") = true ∧
      String.mk (chars "Naman" ++ ' ' :: chars "Kumar") = "Naman Kumar" ∧
      clean_and_correct_name "Naman Kumar" = "Anaman Kumar" ∧
      "Anaman Kumar" ≠ "Naman Kumar" := by decide

/-- C8 amended: NameNormalizer is idempotent on clean "Firstname Lastname"
strings (two capitalized alphabetic words, each of length ≥ 2, joined by a
single space) provided neither word's lower-cased form contains a
truncated-name dictionary fragment. -/
theorem claim_C8_idempotent (w1 w2 : List Char)
    (hc1 : isCleanToken w1 = true) (hc2 : isCleanToken w2 = true)
    (hf1 : noFragment w1 = true) (hf2 : noFragment w2 = true) :
    clean_and_correct_name (String.mk (w1 ++ ' ' :: w2)) =
      String.mk (w1 ++ ' ' :: w2) := by
  simp only [isCleanToken, Bool.and_eq_true, decide_eq_true_eq] at hc1 hc2
  obtain ⟨⟨hlen1, hall1⟩, hcap1⟩ := hc1
  obtain ⟨⟨hlen2, hall2⟩, hcap2⟩ := hc2
  have hall1' : ∀ c ∈ w1, isLetterAZ c = true := List.all_eq_true.mp hall1
  have hall2' : ∀ c ∈ w2, isLetterAZ c = true := List.all_eq_true.mp hall2
  have hne1 : w1 ≠ [] := by intro h; rw [h] at hlen1; simp at hlen1
  have hne2 : w2 ≠ [] := by intro h; rw [h] at hlen2; simp at hlen2
  have hws1 : ∀ c ∈ w1, isWsChar c = false := fun c hc => not_ws_of_letter (hall1' c hc)
  have hws2 : ∀ c ∈ w2, isWsChar c = false := fun c hc => not_ws_of_letter (hall2' c hc)
  have hnd1 : ∀ c ∈ w1, isDigitChar c = false := fun c hc => not_digit_of_letter (hall1' c hc)
  have hnd2 : ∀ c ∈ w2, isDigitChar c = false := fun c hc => not_digit_of_letter (hall2' c hc)
  obtain ⟨a, w1', hw1eq⟩ : ∃ a w1', w1 = a :: w1' := by
    cases w1 with
    | nil => exact absurd rfl hne1
    | cons a b => exact ⟨a, b, rfl⟩
  obtain ⟨z, y, t, hw2rev⟩ : ∃ z y t, w2.reverse = z :: y :: t := by
    cases hr : w2.reverse with
    | nil =>
      have h0 : w2 = [] := by
        rw [← List.reverse_reverse w2, hr, List.reverse_nil]
      exact absurd h0 hne2
    | cons z rest2 =>
      cases rest2 with
      | nil =>
        have := congrArg List.length hr
        simp at this
        omega
      | cons y t => exact ⟨z, y, t, rfl⟩
  have hzw2 : z ∈ w2 := by
    rw [← List.mem_reverse, hw2rev]
    simp
  have hyw2 : y ∈ w2 := by
    rw [← List.mem_reverse, hw2rev]
    simp
  set l := w1 ++ ' ' :: w2 with hl
  have hlchars : ∀ c ∈ l, isDigitChar c = false ∧ keepChar c = true := by
    intro c hc
    rw [hl] at hc
    rcases List.mem_append.mp hc with h | h
    · exact ⟨hnd1 c h, keep_of_letter (hall1' c h)⟩
    · rcases List.mem_cons.mp h with rfl | h'
      · exact ⟨by decide, by decide⟩
      · exact ⟨hnd2 c h', keep_of_letter (hall2' c h')⟩
  have hsplit : pySplit l = [w1, w2] := pySplit_two hne1 hne2 hws1 hws2
  have hjoin : joinSpace [w1, w2] = l := rfl
  have hfd : l.filter (fun c => !(isDigitChar c)) = l :=
    List.filter_eq_self.mpr (fun c hc => by simp [(hlchars c hc).1])
  have hfk : l.filter keepChar = l :=
    List.filter_eq_self.mpr (fun c hc => (hlchars c hc).2)
  have hwords : cleanWords l = [w1, w2] := by
    unfold cleanWords
    rw [hsplit, hjoin, hfd, hfk, hsplit]
    simp [hlen1, hlen2]
  have hfix1 : pyCapitalize (fix_ocr_errors w1) = w1 := by
    rw [fix_ocr_errors_clean hnd1 hf1, hcap1, hcap1]
  have hfix2 : pyCapitalize (fix_ocr_errors w2) = w2 := by
    rw [fix_ocr_errors_clean hnd2 hf2, hcap2, hcap2]
  have hlrev : l.reverse = z :: y :: (t ++ ' ' :: w1.reverse) := by
    rw [hl]
    rw [show w2 = (z :: y :: t).reverse from by rw [← hw2rev, List.reverse_reverse]]
    simp [List.reverse_append]
  have hdrop1 : l.dropWhile isWsChar = l := by
    rw [hl, hw1eq, List.cons_append]
    exact dropWhile_head_false
      (not_ws_of_letter (hall1' a (by rw [hw1eq]; simp)))
  have hstrip : pyStrip l = l := by
    unfold pyStrip
    rw [hdrop1, hlrev,
      dropWhile_head_false (not_ws_of_letter (hall2' z hzw2)),
      ← hlrev, List.reverse_reverse]
  have htrail : stripTrailingLetter l = l := by
    refine stripTrailingLetter_eq_self ?_
    intro c d rest heq
    rw [hlrev] at heq
    injection heq with h1 heq2
    injection heq2 with h2 heq3
    rw [← h2]
    exact not_ws_of_letter (hall2' y hyw2)
  show String.mk (cleanNameChars l) = String.mk l
  refine congrArg String.mk ?_
  unfold cleanNameChars
  rw [hwords, List.map_cons, List.map_cons, List.map_nil, hfix1, hfix2,
    hjoin, hstrip, htrail]

/-- Witness for the amended C8 at a concrete clean name. -/
theorem claim_C8_witness :
    (isCleanToken (chars "John") = true ∧ isCleanToken (chars "Smith") = true ∧
      noFragment (chars "John") = true ∧ noFragment (chars "Smith") = true) ∧
      clean_and_correct_name (String.mk (chars "John" ++ ' ' :: chars "Smith")) =
        String.mk (chars "John" ++ ' ' :: chars "Smith") :=
  ⟨⟨by decide, by decide, by decide, by decide⟩,
   claim_C8_idempotent (chars "John") (chars "Smith")
     (by decide) (by decide) (by decide) (by decide)⟩
